import Mathlib

set_option autoImplicit false

/-
Verification development for the netsuite-base-openapi extraction engine.
The source program walks a rendered HTML documentation page and rebuilds an
OpenAPI model: paths with operations and parameters, and named schema
definitions with properties.  Everything below is a shallow embedding of
the functions in src/parser.ts over an explicit document-tree type, with
the puppeteer node-query facility modelled as a deterministic CSS-like
query over that tree and every fallible step modelled in the Except monad.
-/

namespace NsOpenApi

/-! ### Character-level string helpers

The JavaScript string operations used by the source (trim, replaceAll,
replace, includes, startsWith, toUpperCase, split) are modelled by
structurally recursive functions over the character list of a string, so
that all of them compute by kernel reduction. -/

/-- Rebuild a string from a character list. -/
def ofChars (l : List Char) : String := ⟨l⟩

/-- Is the first character list an initial segment of the second? -/
def charsPre : List Char → List Char → Bool
  | [], _ => true
  | _ :: _, [] => false
  | a :: as, b :: bs => (a = b) && charsPre as bs

/-- JavaScript startsWith, used for the CSS attribute selector id^=value. -/
def strStarts (s pre : String) : Bool := charsPre pre.data s.data

def splitSpaceAux : List Char → List Char → List (List Char)
  | [], cur => [cur.reverse]
  | c :: cs, cur =>
      if c = ' ' then cur.reverse :: splitSpaceAux cs []
      else splitSpaceAux cs (c :: cur)

/-- The whitespace-separated class tokens of a className attribute value,
used by the CSS class selector. -/
def classTokens (s : String) : List String := (splitSpaceAux s.data []).map ofChars

def strMem (s : String) : List String → Bool
  | [] => false
  | t :: ts => if s = t then true else strMem s ts

/-- JavaScript String.prototype.trim. -/
def jsTrim (s : String) : String :=
  ofChars (((s.data.dropWhile Char.isWhitespace).reverse.dropWhile
    Char.isWhitespace).reverse)

/-- JavaScript replaceAll with pattern a colon and empty replacement, as
used on parameter names: removes every colon character. -/
def dropColons (s : String) : String := ofChars (s.data.filter (fun c => !(c = ':')))

def charsHasSub (pat : List Char) : List Char → Bool
  | [] => charsPre pat []
  | c :: rest => charsPre pat (c :: rest) || charsHasSub pat rest

/-- JavaScript String.prototype.includes: substring containment. -/
def jsIncludes (s pat : String) : Bool := charsHasSub pat.data s.data

def replFirstChars (pat rep : List Char) : List Char → List Char
  | [] => if charsPre pat [] then rep else []
  | c :: cs =>
      if charsPre pat (c :: cs) then rep ++ (c :: cs).drop pat.length
      else c :: replFirstChars pat rep cs

/-- JavaScript String.prototype.replace with a string pattern: replaces
only the first occurrence. -/
def jsReplaceFirst (s pat rep : String) : String :=
  ofChars (replFirstChars pat.data rep.data s.data)

/-- JavaScript toUpperCase, on the ASCII range used by method tokens. -/
def strUpper (s : String) : String := ofChars (s.data.map Char.toUpper)

/-- JavaScript Array.prototype.join with empty separator. -/
def joinStrs : List String → String
  | [] => ""
  | s :: ss => s ++ joinStrs ss

/-! ### The rendered document tree

A node is a text node (DOM nodeType 3) or an element carrying a tag name,
the className attribute value, the id attribute value, an optional href
attribute and an ordered child list.  This is the shape the node-query
facility exposes to the parser. -/

mutual
inductive Node : Type where
  | text (s : String) : Node
  | elem (tag className idAttr : String) (href : Option String)
      (kids : NodeList) : Node

inductive NodeList : Type where
  | nil : NodeList
  | cons (n : Node) (l : NodeList) : NodeList
end

/-- Build a NodeList from a Lean list, for writing concrete documents. -/
def nl : List Node → NodeList := fun l => l.foldr .cons .nil

def Node.className : Node → String
  | .text _ => ""
  | .elem _ c _ _ _ => c

def Node.href : Node → Option String
  | .text _ => none
  | .elem _ _ _ h _ => h

mutual
/-- DOM textContent of a node: concatenation of all descendant text data
in document order. -/
def fullText : Node → String
  | .text s => s
  | .elem _ _ _ _ ks => fullTextList ks

def fullTextList : NodeList → String
  | .nil => ""
  | .cons k ks => fullText k ++ fullTextList ks
end

/-- The data of the direct text-node children of an element (the
childNodes entries with nodeType 3), in order. -/
def directTextsNL : NodeList → List String
  | .nil => []
  | .cons (.text s) ks => s :: directTextsNL ks
  | .cons (.elem _ _ _ _ _) ks => directTextsNL ks

def directTexts : Node → List String
  | .text _ => []
  | .elem _ _ _ _ ks => directTextsNL ks

/-! ### The node-query facility

One simple selector carries an optional tag name, an optional required
class token, an optional exact id and an optional id start requirement; a
selector is a descendant-combinator chain of simple selectors, outermost
first.  queryAll returns the matching descendants of the scope node in
document (pre-)order, and query returns the first or none, matching
querySelectorAll and the puppeteer element-handle helpers. -/

structure SSel where
  tagName : Option String
  classTok : Option String
  idIs : Option String
  idStart : Option String

def matchesS (s : SSel) : Node → Bool
  | .text _ => false
  | .elem t c i _ _ =>
      (match s.tagName with | none => true | some tn => tn = t) &&
      (match s.classTok with | none => true | some ct => strMem ct (classTokens c)) &&
      (match s.idIs with | none => true | some ie => ie = i) &&
      (match s.idStart with | none => true | some ip => strStarts i ip)

/-- Match the remaining (inner to outer) selector components against the
ancestor list, nearest ancestor first. -/
def ancChain : List SSel → List Node → Bool
  | [], _ => true
  | _ :: _, [] => false
  | s :: ss, a :: as => (matchesS s a && ancChain ss as) || ancChain (s :: ss) as

/-- Does element e with ancestor list ancs match the selector chain? -/
def selMatchesAt (sel : List SSel) (ancs : List Node) (e : Node) : Bool :=
  match sel.reverse with
  | [] => false
  | s :: rest => matchesS s e && ancChain rest ancs

mutual
def queryInto (sel : List SSel) (ancs : List Node) : Node → List Node
  | .text _ => []
  | .elem t c i h ks => queryList sel (Node.elem t c i h ks :: ancs) ks

def queryList (sel : List SSel) (ancs : List Node) : NodeList → List Node
  | .nil => []
  | .cons k ks =>
      (if selMatchesAt sel ancs k then [k] else []) ++
      queryInto sel ancs k ++ queryList sel ancs ks
end

/-- All descendants of the scope matching the selector, document order. -/
def queryAll (scope : Node) (sel : List SSel) : List Node :=
  queryInto sel [] scope

/-- First matching descendant, or none: the puppeteer single-node query. -/
def query (scope : Node) (sel : List SSel) : Option Node :=
  (queryAll scope sel).head?

def selCls (c : String) : SSel := ⟨none, some c, none, none⟩
def selTagOnly (t : String) : SSel := ⟨some t, none, none, none⟩

/-- Selector h1 with id starting tag- as in parsePaths. -/
def selTagHeading : List SSel := [⟨some "h1", none, none, some "tag-"⟩]
/-- Selector div with id starting operation- as in parsePaths. -/
def selOperationDiv : List SSel := [⟨some "div", none, none, some "operation-"⟩]
def selOpMethod : List SSel := [selCls "operation-method"]
def selOpPath : List SSel := [selCls "operation-path"]
def selOpSummary : List SSel := [selCls "operation-summary"]
def selParamRows : List SSel := [selCls "swagger-request-params", selCls "prop-row"]
def selPropTitle : List SSel := [selCls "prop-name", selCls "prop-title"]
def selPropValueP : List SSel := [selCls "prop-value", selTagOnly "p"]
def selPropRequired : List SSel := [selCls "json-property-required"]
def selPropTypeQ : List SSel := [selCls "prop-type", selCls "json-property-type"]
def selEnumItem : List SSel := [selCls "json-property-enum-item"]
def selPropFormat : List SSel := [selCls "prop-format"]
def selDefaultValue : List SSel := [selCls "json-property-default-value"]
def selPropSubtitle : List SSel := [selCls "prop-subtitle"]
def selSchemaRefQ : List SSel := [selCls "json-schema-ref"]
/-- Selector div#docs article div.ns-support-ga as in parsePageToOpenAPI. -/
def selSupportGa : List SSel :=
  [⟨some "div", none, some "docs", none⟩, selTagOnly "article",
   ⟨some "div", some "ns-support-ga", none, none⟩]
/-- Selector div with id starting definition- as in parsePageToOpenAPI. -/
def selDefinition : List SSel := [⟨some "div", none, none, some "definition-"⟩]
def selH2 : List SSel := [selTagOnly "h2"]
/-- Selector section.json-schema-properties dl dt as in parseSchemaProperties. -/
def selSchemaProps : List SSel :=
  [⟨some "section", some "json-schema-properties", none, none⟩,
   selTagOnly "dl", selTagOnly "dt"]
def selJsonPropName : List SSel := [selCls "json-property-name"]
def selJsonPropType : List SSel := [selCls "json-property-type"]

/-! ### Error taxonomy

Each constructor models one distinct thrown failure of the source. -/

inductive PErr : Type where
  /-- Error Element not found, thrown by textContent on a null handle. -/
  | elementNotFound : PErr
  /-- Error Text content not found, thrown by textContent on blank text. -/
  | emptyContent : PErr
  /-- Error Invalid method, thrown by extractMethod. -/
  | invalidMethod (m : String) : PErr
  /-- Error Name not found, thrown by extractParameters. -/
  | nameNotFound : PErr
  /-- TypeError from invoking a member on an undefined element handle, as
  happens when parseSchemas receives the missing first definition node. -/
  | undefinedAccess : PErr
deriving DecidableEq, Repr

/-! ### Output data model (the OpenAPI fragments the source builds) -/

/-- The schema object built for one parameter: declared type, presence of
the empty items object (array case), optional enum, format, default. -/
structure ParameterSchema where
  type : String
  hasItems : Bool
  enum : Option (List String)
  format : Option String
  defaultV : Option String
deriving DecidableEq, Repr

/-- One entry of the parameters array. inLoc models the field named in. -/
structure ParameterObject where
  name : String
  description : String
  required : Bool
  inLoc : String
  schema : ParameterSchema
deriving DecidableEq, Repr

/-- One response envelope: description and the schema reference target of
the single application/json content entry. -/
structure ResponseObject where
  description : String
  schemaRef : String
deriving DecidableEq, Repr

/-- The operation object assembled by parseOperation.  requestBody holds
the schema reference target of the request body when present. -/
structure OperationData where
  responses : List (String × ResponseObject)
  summary : String
  parameters : List ParameterObject
  requestBody : Option String
  tags : List String
deriving DecidableEq, Repr

/-- The triple returned by parseOperation. -/
structure OperationResult where
  path : String
  method : String
  data : OperationData
deriving DecidableEq, Repr

/-- The inner schema object attached to each parsed schema property. -/
structure PropertySchema where
  type : String
  description : String
deriving DecidableEq, Repr

/-- A value of the properties map of a named schema: either the seeded
reference object (type plus ref target) or a parsed property (description
plus inner schema), matching the two object shapes the source stores. -/
inductive PropertyValue : Type where
  | refProp (type : String) (ref : String) : PropertyValue
  | parsedProp (description : String) (schema : PropertySchema) : PropertyValue
deriving DecidableEq, Repr

abbrev PropMap := List (String × PropertyValue)

/-- A named schema definition: constant type object plus properties. -/
structure SchemaObject where
  type : String
  properties : PropMap
deriving DecidableEq, Repr

abbrev MethodMap := List (String × OperationData)
abbrev PathMap := List (String × MethodMap)
abbrev SchemaMap := List (String × SchemaObject)

structure ComponentsObject where
  schemas : SchemaMap
deriving DecidableEq, Repr

/-- The ParsedOpenApi record returned by parsePageToOpenAPI. -/
structure ParsedOpenApi where
  paths : PathMap
  components : ComponentsObject
deriving DecidableEq, Repr

/-! ### JavaScript object semantics

String-keyed objects are modelled as association lists in insertion
order: assignment overwrites in place when the key exists and appends
otherwise, and lookup returns the first (hence unique) binding. -/

def jsLookup {V : Type} : List (String × V) → String → Option V
  | [], _ => none
  | kv :: m, k => if kv.1 = k then some kv.2 else jsLookup m k

def jsInsert {V : Type} : List (String × V) → String → V → List (String × V)
  | [], k, v => [(k, v)]
  | kv :: m, k, v => if kv.1 = k then (kv.1, v) :: m else kv :: jsInsert m k v

/-- Object.assign target source: assign every binding of source onto
target in order. -/
def objAssign {V : Type} (target source : List (String × V)) : List (String × V) :=
  source.foldl (fun t kv => jsInsert t kv.1 kv.2) target

/-- Lookup through both levels of a path map: paths at P, then method M. -/
def jsLookup2 (m : PathMap) (p mth : String) : Option OperationData :=
  match jsLookup m p with
  | none => none
  | some mm => jsLookup mm mth

/-! ### Leaf extractors -/

/-- textContent from the source: throws Element not found on a null
handle, reads and trims the text, throws Text content not found when the
trimmed text is empty. -/
def textContent : Option Node → Except PErr String
  | none => .error .elementNotFound
  | some el =>
      let r := jsTrim (fullText el)
      if r = "" then .error .emptyContent else .ok r

/-- The OpenAPIV3.HttpMethods enumeration: uppercase keys to lowercase
method values. -/
def httpMethodsEnum : List (String × String) :=
  [("GET", "get"), ("PUT", "put"), ("POST", "post"), ("DELETE", "delete"),
   ("OPTIONS", "options"), ("HEAD", "head"), ("PATCH", "patch"),
   ("TRACE", "trace")]

/-- extractMethod from the source: uppercase the token, look it up in the
method enumeration, throw Invalid method otherwise. -/
def extractMethod (method : String) : Except PErr String :=
  match jsLookup httpMethodsEnum (strUpper method) with
  | some v => .ok v
  | none => .error (.invalidMethod method)

/-- capitalize from the source: uppercase the first character, keep the
remainder unchanged. -/
def capitalize (str : String) : String :=
  match str.data with
  | [] => ""
  | c :: cs => ofChars (c.toUpper :: cs)

/-! ### Parameter extractor -/

/-- The name computation evaluated on the prop-title node: concatenate
only the direct text-node children (excluding nested element text), trim,
then remove every colon (replaceAll). -/
def jsParamName (c : Node) : String := dropColons (jsTrim (joinStrs (directTexts c)))

/-- Collect trimmed text content of each enum item node, in order. -/
def textList : List Node → Except PErr (List String)
  | [] => .ok []
  | e :: es => do
      let t ← textContent (some e)
      let ts ← textList es
      pure (t :: ts)

/-- extractParameters body for one prop-row node, following the source
step by step: name from the title node (Name not found when the handle is
null or the computed name is empty), description, required flag, declared
type, array versus primitive schema, optional enum, format and default
facets, then the location by stripping the first occurrence of in from
the subtitle text. -/
def extractParameter (parameter : Node) : Except PErr ParameterObject := do
  let nameEl := query parameter selPropTitle
  let nameOpt := nameEl.map jsParamName
  let name ← match nameOpt with
    | none => Except.error PErr.nameNotFound
    | some s => if s = "" then Except.error PErr.nameNotFound else Except.ok s
  let description ← textContent (query parameter selPropValueP)
  let required := (query parameter selPropRequired).isSome
  let type ← textContent (query parameter selPropTypeQ)
  let schema0 : ParameterSchema :=
    if type = "array" then
      { type := "array", hasItems := true, enum := none, format := none,
        defaultV := none }
    else
      { type := type, hasItems := false, enum := none, format := none,
        defaultV := none }
  let enumsElement := queryAll parameter selEnumItem
  let schema1 ←
    if enumsElement.length ≠ 0 then do
      let es ← textList enumsElement
      pure { schema0 with enum := some es }
    else pure schema0
  let schema2 ←
    match query parameter selPropFormat with
    | some formatEl => do
        let f ← textContent (some formatEl)
        pure { schema1 with format := some f }
    | none => pure schema1
  let schema3 ←
    match query parameter selDefaultValue with
    | some defaultEl => do
        let d ← textContent (some defaultEl)
        pure { schema2 with defaultV := some d }
    | none => pure schema2
  let subtitleText ← textContent (query parameter selPropSubtitle)
  let parameterIn := jsTrim (jsReplaceFirst subtitleText "in" "")
  let _schemaRef := query parameter selSchemaRefQ
  pure { name := name, description := description, required := required,
         inLoc := parameterIn, schema := schema3 }

def extractParamsList : List Node → Except PErr (List ParameterObject)
  | [] => .ok []
  | p :: ps => do
      let r ← extractParameter p
      let rs ← extractParamsList ps
      pure (r :: rs)

/-- extractParameters from the source: every prop-row under the request
parameters scope, each converted by extractParameter. -/
def extractParameters (operation : Node) : Except PErr (List ParameterObject) :=
  extractParamsList (queryAll operation selParamRows)

/-! ### Schema reference extractors -/

/-- extractSchema from the source: first json-schema-ref descendant under
the given class scope, reading its href target; absent node, absent
attribute or empty target all yield none. -/
def extractSchema (operation : Node) (selector : String) : Option String :=
  match query operation [selCls selector, selCls "json-schema-ref"] with
  | none => none
  | some el =>
      match el.href with
      | none => none
      | some r => if r = "" then none else some r

/-- extractErrorSchema from the source: literally the same first-match
query under swagger-responses. -/
def extractErrorSchema (operation : Node) : Option String :=
  match query operation [selCls "swagger-responses", selCls "json-schema-ref"] with
  | none => none
  | some el =>
      match el.href with
      | none => none
      | some r => if r = "" then none else some r

/-! ### Operation extractor -/

/-- The responses object: key 200 present exactly when a response schema
reference was found, key default present exactly when an error schema
reference was found, each wrapped in the fixed envelope. -/
def buildResponses (responseSchema errorSchema : Option String) :
    List (String × ResponseObject) :=
  (match responseSchema with
   | some r => [("200", ⟨"Successful response", r⟩)]
   | none => []) ++
  (match errorSchema with
   | some e => [("default", ⟨"Error response", e⟩)]
   | none => [])

/-- parseOperation from the source: method, path, summary, parameters,
request and response schema references, responses map, tag from the
capitalized group name. -/
def parseOperation (operation : Node) (tagName : String) :
    Except PErr OperationResult := do
  let mtext ← textContent (query operation selOpMethod)
  let method ← extractMethod mtext
  let path ← textContent (query operation selOpPath)
  let summary ← textContent (query operation selOpSummary)
  let parameters ← extractParameters operation
  let requestSchema := extractSchema operation "swagger-request-body"
  let responseSchema := extractSchema operation "swagger-responses"
  let errorSchema := extractErrorSchema operation
  pure { path := path, method := method,
         data := { responses := buildResponses responseSchema errorSchema,
                   summary := summary, parameters := parameters,
                   requestBody := requestSchema,
                   tags := [capitalize tagName] } }

/-! ### Path group extractor -/

/-- One loop step of parsePaths: paths bracket path or-assign empty
object, then assign the method key. -/
def insertOp (paths : PathMap) (r : OperationResult) : PathMap :=
  jsInsert paths r.path (jsInsert ((jsLookup paths r.path).getD []) r.method r.data)

/-- The operation loop of parsePaths, threading the accumulated map. -/
def opsLoop (tagName : String) : List Node → PathMap → Except PErr PathMap
  | [], paths => .ok paths
  | op :: rest, paths => do
      let r ← parseOperation op tagName
      opsLoop tagName rest (insertOp paths r)

/-- parsePaths from the source: read the group heading with textContent
(so an absent or blank heading throws), keep the unreachable empty-name
early return, then fold every operation div into the path map. -/
def parsePaths (d : Node) : Except PErr PathMap := do
  let tagName ← textContent (query d selTagHeading)
  if tagName = "" then pure []
  else opsLoop tagName (queryAll d selOperationDiv) []

/-! ### Schema property extractor -/

/-- The value seeded under the id key for every schema. -/
def idSeedValue : PropertyValue :=
  .refProp "object" "#/components/schemas/RecordRef"

/-- The continuation classification of the source: array items marker,
properties marker, else the string fallback.  The source applies this to
the className of the consumed inner-schema sibling. -/
def classifyInner (sectionClassName : String) : String :=
  if jsIncludes sectionClassName "json-schema-array-items" then "array"
  else if jsIncludes sectionClassName "json-schema-properties" then "object"
  else "string"

/-- The property loop of parseSchemaProperties with its forward cursor:
when the immediately following sibling has className exactly
json-inner-schema it is consumed as a continuation and classified,
otherwise the type is read from the type sub-node of the current term.
The resolved type is then discarded by the source, which always emits a
value of shape description plus an inner schema of type string. -/
def propsLoop : List Node → PropMap → Except PErr PropMap
  | [], result => .ok result
  | [property], result => do
      let _resolvedType ← textContent (query property selJsonPropType)
      let name ← textContent (query property selJsonPropName)
      let description ← textContent (query property selPropValueP)
      let _required := (query property selPropRequired).isSome
      let schema : PropertySchema := { type := "string", description := description }
      propsLoop [] (jsInsert result name (.parsedProp description schema))
  | property :: next :: rest2, result =>
      if next.className = "json-inner-schema" then do
        let _resolvedType := classifyInner next.className
        let name ← textContent (query property selJsonPropName)
        let description ← textContent (query property selPropValueP)
        let _required := (query property selPropRequired).isSome
        let schema : PropertySchema := { type := "string", description := description }
        propsLoop rest2 (jsInsert result name (.parsedProp description schema))
      else do
        let _resolvedType ← textContent (query property selJsonPropType)
        let name ← textContent (query property selJsonPropName)
        let description ← textContent (query property selPropValueP)
        let _required := (query property selPropRequired).isSome
        let schema : PropertySchema := { type := "string", description := description }
        propsLoop (next :: rest2) (jsInsert result name (.parsedProp description schema))

/-- parseSchemaProperties from the source: select the flat dt sibling
list, seed the synthetic id reference property, then run the loop. -/
def parseSchemaProperties (schemaElement : Node) : Except PErr PropMap :=
  propsLoop (queryAll schemaElement selSchemaProps) (jsInsert [] "id" idSeedValue)

/-- parseSchemas from the source.  The orchestrator passes the possibly
absent first definition element; invoking the query member on an
undefined handle raises a TypeError, modelled as undefinedAccess. -/
def parseSchemas (schemaElement : Option Node) (schemas : SchemaMap) :
    Except PErr SchemaMap :=
  match schemaElement with
  | none => .error .undefinedAccess
  | some el => do
      let title ← textContent (query el selH2)
      let props ← parseSchemaProperties el
      pure (jsInsert schemas title { type := "object", properties := props })

/-! ### Document orchestrator -/

/-- The endpoint loop of parsePageToOpenAPI: parse each group section and
Object.assign its path map onto the accumulator. -/
def groupsLoop : List Node → PathMap → Except PErr PathMap
  | [], paths => .ok paths
  | endpoint :: rest, paths => do
      let endpointPaths ← parsePaths endpoint
      groupsLoop rest (objAssign paths endpointPaths)

/-- parsePageToOpenAPI from the source: fold all supported-GA group
sections, then take only the first definition node (the loop over all of
them is commented out in the source) and parse its schemas. -/
def parsePageToOpenAPI (page : Node) : Except PErr ParsedOpenApi := do
  let endpoints := queryAll page selSupportGa
  let paths ← groupsLoop endpoints []
  let schemaElements := queryAll page selDefinition
  let schemaElement := schemaElements.head?
  let schemas ← parseSchemas schemaElement []
  pure { paths := paths, components := { schemas := schemas } }

/-! ### Concrete document fragments used by the witnesses and
counterexamples below -/

/-- Shorthand for a text node. -/
def tx (s : String) : Node := .text s

/-- Shorthand for an element with a class and no id or href. -/
def el (tag cls : String) (ks : List Node) : Node :=
  .elem tag cls "" none (nl ks)

/-- Shorthand for an element with an id and no class or href. -/
def elId (tag i : String) (ks : List Node) : Node :=
  .elem tag "" i none (nl ks)

/-- A minimal well-formed operation node: method, path and summary
sub-nodes, no parameters and no schema references. -/
def opNode (i mth pth sm : String) : Node :=
  elId "div" ("operation-" ++ i)
    [el "span" "operation-method" [tx mth],
     el "span" "operation-path" [tx pth],
     el "span" "operation-summary" [tx sm]]

/-- A group section node with heading id and text and operation list. -/
def groupNode (hid htext : String) (ops : List Node) : Node :=
  el "div" "ns-support-ga" (elId "h1" hid [tx htext] :: ops)

/-- A page: the docs root with one article of group sections followed by
the definition sections. -/
def pageOf (groups defs : List Node) : Node :=
  elId "div" "docs" (el "article" "" groups :: defs)

/-- A property-term node: name, type and description sub-nodes. -/
def dtNode (nm ty de : String) : Node :=
  el "dt" ""
    [el "span" "json-property-name" [tx nm],
     el "span" "json-property-type" [tx ty],
     el "div" "prop-value" [el "p" "" [tx de]]]

/-- A continuation sibling: a dt whose className is exactly
json-inner-schema, as the source demands. -/
def innerDt : Node := el "dt" "json-inner-schema" []

/-- A definition section: heading and flat property list. -/
def defNode (i title : String) (dts : List Node) : Node :=
  elId "div" ("definition-" ++ i)
    [el "h2" "" [tx title],
     el "section" "json-schema-properties" [el "dl" "" dts]]

/-! ### Companion definitions used to state the claims -/

/-- The operation results of a group, in document order, with the same
fail-fast behaviour as the loop in parsePaths. -/
def opResults (tagName : String) : List Node → Except PErr (List OperationResult)
  | [] => .ok []
  | op :: rest => do
      let r ← parseOperation op tagName
      let rs ← opResults tagName rest
      pure (r :: rs)

/-- The data of the last operation result matching a given path and
method, if any: the value last-wins insertion must retain. -/
def lastMatch (p mth : String) : List OperationResult → Option OperationData
  | [] => none
  | r :: rs =>
      match lastMatch p mth rs with
      | some d => some d
      | none => if r.path = p ∧ r.method = mth then some r.data else none

/-- How many property terms the cursor of the schema property loop
consumes: a term followed by a continuation sibling counts once and skips
the continuation. -/
def consumedTermCount : List Node → Nat
  | [] => 0
  | [_] => 1
  | _ :: next :: rest2 =>
      if next.className = "json-inner-schema" then 1 + consumedTermCount rest2
      else 1 + consumedTermCount (next :: rest2)

/-- The name-value pairs the schema property loop inserts, in consumption
order, with the same effects and fail-fast behaviour as propsLoop. -/
def propEntries : List Node → Except PErr (List (String × PropertyValue))
  | [] => .ok []
  | [property] => do
      let _resolvedType ← textContent (query property selJsonPropType)
      let name ← textContent (query property selJsonPropName)
      let description ← textContent (query property selPropValueP)
      let schema : PropertySchema := { type := "string", description := description }
      pure [(name, .parsedProp description schema)]
  | property :: next :: rest2 =>
      if next.className = "json-inner-schema" then do
        let name ← textContent (query property selJsonPropName)
        let description ← textContent (query property selPropValueP)
        let schema : PropertySchema := { type := "string", description := description }
        let es ← propEntries rest2
        pure ((name, .parsedProp description schema) :: es)
      else do
        let _resolvedType ← textContent (query property selJsonPropType)
        let name ← textContent (query property selJsonPropName)
        let description ← textContent (query property selPropValueP)
        let schema : PropertySchema := { type := "string", description := description }
        let es ← propEntries (next :: rest2)
        pure ((name, .parsedProp description schema) :: es)

/-- The keys of an association-list object, in order. -/
def keysOf {V : Type} (m : List (String × V)) : List String := m.map Prod.fst

/-! ### Concrete inputs for the individual claims -/

/-- A property term whose own type sub-node reads boolean. -/
def c1Term : Node := dtNode "x" "boolean" "d"

def c1Def : Node := defNode "account" "account" [c1Term]

def c2DefA : Node := defNode "a" "A" []

def c2DefB : Node := defNode "b" "B" []

/-- A page with no group sections and two definition sections. -/
def c2Page : Node := pageOf [] [c2DefA, c2DefB]

def c2Model : ParsedOpenApi :=
  ⟨[], ⟨[("A", ⟨"object", [("id", idSeedValue)]⟩)]⟩⟩

/-- A group section with an operation but no tag heading node. -/
def c3Group : Node := el "div" "ns-support-ga" [opNode "1" "get" "/account" "List accounts"]

def c3Page : Node := pageOf [c3Group] [defNode "account" "account" []]

/-- A parameter row around a given title node. -/
def c4Row (title : Node) : Node :=
  el "div" "prop-row"
    [el "div" "prop-name" [title],
     el "div" "prop-value" [el "p" "" [tx "Description"]],
     el "div" "prop-type" [el "span" "json-property-type" [tx "string"]],
     el "div" "prop-subtitle" [tx "in query"]]

/-- A title whose direct text holds an interior colon. -/
def c4CexTitle : Node := el "span" "prop-title" [tx " a:b ", el "span" "" [tx "*"]]

def c4CexRowD : Node := c4Row c4CexTitle

/-- The title of the spec example: userId colon, then decorated markup. -/
def c4WitTitle : Node := el "span" "prop-title" [tx "userId:", el "span" "" [tx "*"]]

def c4WitRow : Node := c4Row c4WitTitle

def c4WitRes : ParameterObject :=
  ⟨"userId", "Description", false, "query", ⟨"string", false, none, none, none⟩⟩

def c5Group1 : Node :=
  groupNode "tag-account" "account" [opNode "1" "get" "/account" "List accounts"]

def c5Group2 : Node :=
  groupNode "tag-account2" "account" [opNode "2" "post" "/account" "Create account"]

def c5Def : Node := defNode "account" "account" []

/-- Two group sections contributing different methods to one path. -/
def c5Page : Node := pageOf [c5Group1, c5Group2] [c5Def]

def c5DataGet : OperationData := ⟨[], "List accounts", [], none, ["Account"]⟩

def c5DataPost : OperationData := ⟨[], "Create account", [], none, ["Account"]⟩

/-- A schema definition with two property terms of the same name. -/
def c6CexDef : Node :=
  defNode "dup" "dup" [dtNode "x" "string" "d1", dtNode "x" "string" "d2"]

/-- A schema definition with distinct names, one term consuming a
continuation sibling. -/
def c6WitDef : Node :=
  defNode "account" "account" [dtNode "a" "string" "d", innerDt, dtNode "b" "boolean" "e"]

/-- An operation node with method and path but no summary sub-node. -/
def c7Op : Node :=
  elId "div" "operation-7"
    [el "span" "operation-method" [tx "get"], el "span" "operation-path" [tx "/x"]]

def c7Group : Node := groupNode "tag-x" "xgroup" [c7Op]

def c7Page : Node := pageOf [c7Group] [defNode "d" "D" []]

def c8Group : Node :=
  groupNode "tag-account" "account"
    [opNode "1" "get" "/account" "First summary",
     opNode "2" "get" "/account" "Second summary"]

def c8R1 : OperationResult :=
  ⟨"/account", "get", ⟨[], "First summary", [], none, ["Account"]⟩⟩

def c8R2 : OperationResult :=
  ⟨"/account", "get", ⟨[], "Second summary", [], none, ["Account"]⟩⟩

/-- An operation node carrying one schema reference link in its responses
scope. -/
def c9Op : Node :=
  elId "div" "operation-9"
    [el "span" "operation-method" [tx "get"],
     el "span" "operation-path" [tx "/account"],
     el "span" "operation-summary" [tx "List accounts"],
     Node.elem "div" "swagger-responses" "" none (nl
       [Node.elem "a" "json-schema-ref" "" (some "#/components/schemas/account")
          (nl [tx "account"])])]

def c9Res : OperationResult :=
  ⟨"/account", "get",
   ⟨[("200", ⟨"Successful response", "#/components/schemas/account"⟩),
     ("default", ⟨"Error response", "#/components/schemas/account"⟩)],
    "List accounts", [], none, ["Account"]⟩⟩

/-- A page with a group section but no definition section at all. -/
def c10Page : Node := pageOf [groupNode "tag-a" "acc" [opNode "1" "get" "/a" "s"]] []

/-! ### Lemmas about the JavaScript object model -/

theorem jsLookup_jsInsert {V : Type} (m : List (String × V)) (k : String)
    (v : V) (q : String) :
    jsLookup (jsInsert m k v) q = if q = k then some v else jsLookup m q := by
  induction m with
  | nil =>
      simp only [jsInsert, jsLookup]
      by_cases hq : q = k
      · rw [if_pos hq.symm, if_pos hq]
      · rw [if_neg (fun hh => hq hh.symm), if_neg hq]
  | cons kv m ih =>
      simp only [jsInsert]
      by_cases hk : kv.1 = k
      · rw [if_pos hk]
        simp only [jsLookup]
        by_cases hq : q = k
        · rw [if_pos (hk.trans hq.symm), if_pos hq]
        · have hkq : ¬kv.1 = q := fun h2 => hq (h2 ▸ hk)
          rw [if_neg hkq, if_neg hq, if_neg hkq]
      · rw [if_neg hk]
        simp only [jsLookup, ih]
        by_cases hq2 : kv.1 = q
        · have hqk : ¬q = k := fun h3 => hk (hq2.trans h3)
          rw [if_pos hq2, if_neg hqk, if_pos hq2]
        · rw [if_neg hq2, if_neg hq2]

theorem jsLookup_jsInsert_self {V : Type} (m : List (String × V)) (k : String)
    (v : V) : jsLookup (jsInsert m k v) k = some v := by
  rw [jsLookup_jsInsert, if_pos rfl]

theorem jsLookup_jsInsert_ne {V : Type} (m : List (String × V)) (k q : String)
    (v : V) (h : q ≠ k) : jsLookup (jsInsert m k v) q = jsLookup m q := by
  rw [jsLookup_jsInsert, if_neg h]

theorem jsLookup_eq_none_of_not_mem {V : Type} (m : List (String × V))
    (k : String) (h : k ∉ keysOf m) : jsLookup m k = none := by
  induction m with
  | nil => rfl
  | cons kv m ih =>
      simp only [keysOf, List.map_cons, List.mem_cons, not_or] at h
      simp only [jsLookup]
      rw [if_neg (fun hh => h.1 hh.symm)]
      exact ih h.2

theorem keysOf_jsInsert {V : Type} (m : List (String × V)) (k : String) (v : V) :
    keysOf (jsInsert m k v) =
      if k ∈ keysOf m then keysOf m else keysOf m ++ [k] := by
  induction m with
  | nil => simp [jsInsert, keysOf]
  | cons kv m ih =>
      simp only [jsInsert]
      by_cases hk : kv.1 = k
      · rw [if_pos hk]
        have hmem : k ∈ keysOf (kv :: m) := by
          simp only [keysOf, List.map_cons, List.mem_cons]
          exact Or.inl hk.symm
        rw [if_pos hmem]
        simp [keysOf, hk]
      · rw [if_neg hk]
        have hkeys : keysOf (kv :: jsInsert m k v) = kv.1 :: keysOf (jsInsert m k v) := rfl
        rw [hkeys, ih]
        by_cases hm : k ∈ keysOf m
        · have : k ∈ keysOf (kv :: m) := by
            simp only [keysOf, List.map_cons, List.mem_cons]
            exact Or.inr hm
          rw [if_pos hm, if_pos this]
          rfl
        · have : k ∉ keysOf (kv :: m) := by
            simp only [keysOf, List.map_cons, List.mem_cons, not_or]
            exact ⟨fun hh => hk hh.symm, hm⟩
          rw [if_neg hm, if_neg this]
          rfl

theorem nodup_keys_jsInsert {V : Type} (m : List (String × V)) (k : String)
    (v : V) (h : (keysOf m).Nodup) : (keysOf (jsInsert m k v)).Nodup := by
  rw [keysOf_jsInsert]
  by_cases hm : k ∈ keysOf m
  · rw [if_pos hm]
    exact h
  · rw [if_neg hm]
    refine List.nodup_append.mpr ⟨h, List.nodup_singleton k, fun a ha hb => ?_⟩
    rw [List.mem_singleton] at hb
    exact hm (hb ▸ ha)

theorem jsLookup_objAssign_of_none {V : Type} (s : List (String × V)) :
    ∀ (t : List (String × V)) (k : String), jsLookup s k = none →
      jsLookup (objAssign t s) k = jsLookup t k := by
  induction s with
  | nil => intro t k _; rfl
  | cons kv s ih =>
      intro t k h
      simp only [jsLookup] at h
      by_cases hk : kv.1 = k
      · rw [if_pos hk] at h
        cases h
      · rw [if_neg hk] at h
        show jsLookup (objAssign (jsInsert t kv.1 kv.2) s) k = jsLookup t k
        rw [ih (jsInsert t kv.1 kv.2) k h,
          jsLookup_jsInsert_ne t kv.1 k kv.2 (fun hh => hk hh.symm)]

theorem jsLookup_objAssign_of_some {V : Type} (s : List (String × V)) :
    ∀ (t : List (String × V)) (k : String) (v : V), (keysOf s).Nodup →
      jsLookup s k = some v → jsLookup (objAssign t s) k = some v := by
  induction s with
  | nil => intro t k v _ h; cases h
  | cons kv s ih =>
      intro t k v hnd h
      simp only [jsLookup] at h
      simp only [keysOf, List.map_cons, List.nodup_cons] at hnd
      by_cases hk : kv.1 = k
      · rw [if_pos hk] at h
        cases h
        have hnone : jsLookup s k = none := by
          apply jsLookup_eq_none_of_not_mem
          rw [← hk]
          exact hnd.1
        show jsLookup (objAssign (jsInsert t kv.1 kv.2) s) k = some kv.2
        rw [jsLookup_objAssign_of_none s (jsInsert t kv.1 kv.2) k hnone, ← hk,
          jsLookup_jsInsert_self]
      · rw [if_neg hk] at h
        exact ih (jsInsert t kv.1 kv.2) k v hnd.2 h

theorem jsLookup2_insertOp (m : PathMap) (r : OperationResult) (p mth : String) :
    jsLookup2 (insertOp m r) p mth =
      if r.path = p ∧ r.method = mth then some r.data else jsLookup2 m p mth := by
  unfold insertOp jsLookup2
  rw [jsLookup_jsInsert]
  by_cases hp : p = r.path
  · rw [if_pos hp]
    show jsLookup (jsInsert ((jsLookup m r.path).getD []) r.method r.data) mth = _
    rw [jsLookup_jsInsert]
    by_cases hm : mth = r.method
    · rw [if_pos hm, if_pos ⟨hp.symm, hm.symm⟩]
    · rw [if_neg hm, if_neg (fun hc => hm hc.2.symm), hp]
      cases h : jsLookup m r.path with
      | none => rfl
      | some mm => rfl
  · rw [if_neg hp, if_neg (fun hc => hp hc.1.symm)]

theorem jsLookup2_foldl_insertOp (rs : List OperationResult) (acc : PathMap)
    (p mth : String) :
    jsLookup2 (rs.foldl insertOp acc) p mth =
      match lastMatch p mth rs with
      | some d => some d
      | none => jsLookup2 acc p mth := by
  induction rs generalizing acc with
  | nil => rfl
  | cons r rs ih =>
      simp only [List.foldl_cons, lastMatch]
      rw [ih (insertOp acc r), jsLookup2_insertOp]
      cases lastMatch p mth rs with
      | some d => rfl
      | none =>
          by_cases hc : r.path = p ∧ r.method = mth
          · simp [hc]
          · simp [hc]

theorem nodup_keys_foldl_insertOp (rs : List OperationResult) (acc : PathMap)
    (h : (keysOf acc).Nodup) : (keysOf (rs.foldl insertOp acc)).Nodup := by
  induction rs generalizing acc with
  | nil => exact h
  | cons r rs ih =>
      exact ih (insertOp acc r) (nodup_keys_jsInsert _ _ _ h)

/-! ### Lemmas about the leaf extractors and loops -/

theorem textContent_ok_ne_empty (x : Option Node) (s : String)
    (h : textContent x = .ok s) : s ≠ "" := by
  cases x with
  | none => cases h
  | some e =>
      simp only [textContent] at h
      split at h
      · cases h
      · cases h
        assumption

theorem opsLoop_eq (t : String) (ops : List Node) (acc : PathMap) :
    opsLoop t ops acc =
      match opResults t ops with
      | .error e => .error e
      | .ok rs => .ok (rs.foldl insertOp acc) := by
  induction ops generalizing acc with
  | nil => rfl
  | cons op rest ih =>
      cases hop : parseOperation op t with
      | error e => simp only [opsLoop, opResults, bind, Except.bind, hop]
      | ok r =>
          simp only [opsLoop, opResults, bind, Except.bind, hop,
            ih (insertOp acc r)]
          cases opResults t rest with
          | error e => rfl
          | ok rs => rfl

theorem opsLoop_error_of_mem (t : String) (l1 l2 : List Node) (o : Node)
    (acc : PathMap) (e : PErr) (ho : parseOperation o t = .error e)
    (hl1 : ∀ x ∈ l1, ∃ r, parseOperation x t = .ok r) :
    opsLoop t (l1 ++ o :: l2) acc = .error e := by
  induction l1 generalizing acc with
  | nil => simp [opsLoop, ho, bind, Except.bind]
  | cons x l1 ih =>
      obtain ⟨r, hr⟩ := hl1 x (List.mem_cons_self x l1)
      simp only [List.cons_append, opsLoop, bind, Except.bind, hr]
      exact ih (insertOp acc r) (fun y hy => hl1 y (List.mem_cons_of_mem x hy))

theorem groupsLoop_error_of_mem (gl1 gl2 : List Node) (g : Node)
    (acc : PathMap) (e : PErr) (hg : parsePaths g = .error e)
    (h : ∀ x ∈ gl1, ∃ pm, parsePaths x = .ok pm) :
    groupsLoop (gl1 ++ g :: gl2) acc = .error e := by
  induction gl1 generalizing acc with
  | nil => simp [groupsLoop, hg, bind, Except.bind]
  | cons x gl1 ih =>
      obtain ⟨pm, hpm⟩ := h x (List.mem_cons_self x gl1)
      simp only [List.cons_append, groupsLoop, bind, Except.bind, hpm]
      exact ih (objAssign acc pm) (fun y hy => h y (List.mem_cons_of_mem x hy))

theorem parsePaths_nodup_keys (g : Node) (m : PathMap)
    (h : parsePaths g = .ok m) : (keysOf m).Nodup := by
  unfold parsePaths at h
  simp only [bind, Except.bind] at h
  split at h
  · cases h
  · split at h
    · cases h
      simp [keysOf]
    · rw [opsLoop_eq] at h
      split at h
      · cases h
      · cases h
        exact nodup_keys_foldl_insertOp _ [] (by simp [keysOf])

theorem propsLoop_eq_aux (n : Nat) :
    ∀ (props : List Node), props.length ≤ n → ∀ (acc : PropMap),
      propsLoop props acc =
        match propEntries props with
        | .error e => .error e
        | .ok es => .ok (es.foldl (fun a nv => jsInsert a nv.1 nv.2) acc) := by
  induction n with
  | zero =>
      intro props hlen acc
      have hnil : props = [] := List.eq_nil_of_length_eq_zero (Nat.le_zero.mp hlen)
      subst hnil
      rfl
  | succ n ih =>
      intro props hlen acc
      match props with
      | [] => rfl
      | [property] =>
          simp only [propsLoop, propEntries, bind, Except.bind]
          cases textContent (query property selJsonPropType) with
          | error e => rfl
          | ok t1 =>
              cases textContent (query property selJsonPropName) with
              | error e => rfl
              | ok nm =>
                  cases textContent (query property selPropValueP) with
                  | error e => rfl
                  | ok de => rfl
      | property :: next :: rest2 =>
          by_cases hin : next.className = "json-inner-schema"
          · simp only [propsLoop, propEntries, if_pos hin, bind, Except.bind]
            cases textContent (query property selJsonPropName) with
            | error e => rfl
            | ok nm =>
                cases textContent (query property selPropValueP) with
                | error e => rfl
                | ok de =>
                    have hr : rest2.length ≤ n := by
                      simp only [List.length_cons] at hlen
                      omega
                    simp only []
                    rw [ih rest2 hr]
                    cases propEntries rest2 with
                    | error e => rfl
                    | ok es => rfl
          · simp only [propsLoop, propEntries, if_neg hin, bind, Except.bind]
            cases textContent (query property selJsonPropType) with
            | error e => rfl
            | ok t1 =>
                cases textContent (query property selJsonPropName) with
                | error e => rfl
                | ok nm =>
                    cases textContent (query property selPropValueP) with
                    | error e => rfl
                    | ok de =>
                        have hr : (next :: rest2).length ≤ n := by
                          simp only [List.length_cons] at hlen ⊢
                          omega
                        simp only []
                        rw [ih (next :: rest2) hr]
                        cases propEntries (next :: rest2) with
                        | error e => rfl
                        | ok es => rfl

theorem propsLoop_eq (props : List Node) (acc : PropMap) :
    propsLoop props acc =
      match propEntries props with
      | .error e => .error e
      | .ok es => .ok (es.foldl (fun a nv => jsInsert a nv.1 nv.2) acc) :=
  propsLoop_eq_aux props.length props (Nat.le_refl _) acc

theorem propEntries_length_aux (n : Nat) :
    ∀ (props : List Node), props.length ≤ n →
      ∀ (es : List (String × PropertyValue)), propEntries props = .ok es →
        es.length = consumedTermCount props := by
  induction n with
  | zero =>
      intro props hlen es h
      have hnil : props = [] := List.eq_nil_of_length_eq_zero (Nat.le_zero.mp hlen)
      subst hnil
      cases h
      rfl
  | succ n ih =>
      intro props hlen es h
      match props with
      | [] =>
          cases h
          rfl
      | [property] =>
          simp only [propEntries, bind, Except.bind] at h
          cases h1 : textContent (query property selJsonPropType) with
          | error e =>
                simp only [h1] at h
                cases h
          | ok t1 =>
              simp only [h1] at h
              cases h2 : textContent (query property selJsonPropName) with
              | error e =>
                simp only [h2] at h
                cases h
              | ok nm =>
                  simp only [h2] at h
                  cases h3 : textContent (query property selPropValueP) with
                  | error e =>
                simp only [h3] at h
                cases h
                  | ok de =>
                      simp only [h3, pure, Except.pure] at h
                      cases h
                      rfl
      | property :: next :: rest2 =>
          by_cases hin : next.className = "json-inner-schema"
          · simp only [propEntries, if_pos hin, bind, Except.bind] at h
            cases h1 : textContent (query property selJsonPropName) with
            | error e =>
                simp only [h1] at h
                cases h
            | ok nm =>
                simp only [h1] at h
                cases h2 : textContent (query property selPropValueP) with
                | error e =>
                simp only [h2] at h
                cases h
                | ok de =>
                    simp only [h2] at h
                    cases h3 : propEntries rest2 with
                    | error e =>
                simp only [h3] at h
                cases h
                    | ok es2 =>
                        simp only [h3, pure, Except.pure] at h
                        cases h
                        have hr : rest2.length ≤ n := by
                          simp only [List.length_cons] at hlen
                          omega
                        simp only [List.length_cons, consumedTermCount, if_pos hin,
                          ih rest2 hr es2 h3]
                        omega
          · simp only [propEntries, if_neg hin, bind, Except.bind] at h
            cases h0 : textContent (query property selJsonPropType) with
            | error e =>
                simp only [h0] at h
                cases h
            | ok t1 =>
                simp only [h0] at h
                cases h1 : textContent (query property selJsonPropName) with
                | error e =>
                simp only [h1] at h
                cases h
                | ok nm =>
                    simp only [h1] at h
                    cases h2 : textContent (query property selPropValueP) with
                    | error e =>
                simp only [h2] at h
                cases h
                    | ok de =>
                        simp only [h2] at h
                        cases h3 : propEntries (next :: rest2) with
                        | error e =>
                simp only [h3] at h
                cases h
                        | ok es2 =>
                            simp only [h3, pure, Except.pure] at h
                            cases h
                            have hr : (next :: rest2).length ≤ n := by
                              simp only [List.length_cons] at hlen ⊢
                              omega
                            simp only [List.length_cons, consumedTermCount,
                              if_neg hin, ih (next :: rest2) hr es2 h3]
                            omega

theorem propEntries_length (props : List Node)
    (es : List (String × PropertyValue)) (h : propEntries props = .ok es) :
    es.length = consumedTermCount props :=
  propEntries_length_aux props.length props (Nat.le_refl _) es h

theorem foldl_jsInsert_fresh {V : Type} (es : List (String × V)) :
    ∀ (acc : List (String × V)),
      (∀ k, k ∈ es.map Prod.fst → k ∉ keysOf acc) →
      (es.map Prod.fst).Nodup →
      ((es.foldl (fun a nv => jsInsert a nv.1 nv.2) acc).length =
         acc.length + es.length ∧
       ∀ k, k ∈ keysOf acc →
         jsLookup (es.foldl (fun a nv => jsInsert a nv.1 nv.2) acc) k =
           jsLookup acc k) := by
  induction es with
  | nil =>
      intro acc _ _
      exact ⟨by simp, fun k _ => rfl⟩
  | cons nv es ih =>
      intro acc hf hnd
      simp only [List.map_cons, List.nodup_cons] at hnd
      have hnv : nv.1 ∉ keysOf acc := hf nv.1 (by simp)
      have hkeys : keysOf (jsInsert acc nv.1 nv.2) = keysOf acc ++ [nv.1] := by
        rw [keysOf_jsInsert, if_neg hnv]
      have hlen : (jsInsert acc nv.1 nv.2).length = acc.length + 1 := by
        have h1 : (keysOf (jsInsert acc nv.1 nv.2)).length =
            (keysOf acc ++ [nv.1]).length := by rw [hkeys]
        simp only [keysOf, List.length_map, List.length_append,
          List.length_singleton] at h1
        exact h1
      have hf2 : ∀ k, k ∈ es.map Prod.fst → k ∉ keysOf (jsInsert acc nv.1 nv.2) := by
        intro k hk
        rw [hkeys]
        simp only [List.mem_append, List.mem_singleton, not_or]
        exact ⟨hf k (List.mem_cons_of_mem _ hk), fun he => hnd.1 (he ▸ hk)⟩
      obtain ⟨ihl, ihlook⟩ := ih (jsInsert acc nv.1 nv.2) hf2 hnd.2
      constructor
      · simp only [List.foldl_cons]
        rw [ihl, hlen]
        simp only [List.length_cons]
        omega
      · intro k hk
        simp only [List.foldl_cons]
        rw [ihlook k (by rw [hkeys]; exact List.mem_append_left _ hk),
          jsLookup_jsInsert_ne _ _ _ _ (fun he => hnv (by rw [← he]; exact hk))]

/-! ### Supporting lemma for the responses invariant -/

theorem buildResponses_sync (x : Option String) :
    ((jsLookup (buildResponses x x) "200").isSome =
      (jsLookup (buildResponses x x) "default").isSome) ∧
    ∀ a b, jsLookup (buildResponses x x) "200" = some a →
      jsLookup (buildResponses x x) "default" = some b →
      a.schemaRef = b.schemaRef := by
  cases x with
  | none =>
      refine ⟨rfl, fun a b ha hb => ?_⟩
      cases ha
  | some v =>
      refine ⟨rfl, fun a b ha hb => ?_⟩
      have ha2 := Option.some.inj ha
      have hb2 := Option.some.inj hb
      rw [← ha2, ← hb2]

/-! ### The claims -/

/-- C1: the claim states that a property term followed by a continuation
sibling yields type array, object or string from the continuation marker,
and that a term without continuation yields the type read from its own
type sub-node.  The code computes that classification but discards it:
here a term whose type sub-node reads boolean and has no continuation is
emitted with an inner schema of type string and no resolved type at all,
contradicting the claim and the case analysis documented in the source
comment. -/
theorem c1_code_eval :
    textContent (query c1Term selJsonPropType) = .ok "boolean" ∧
    parseSchemaProperties c1Def =
      .ok [("id", idSeedValue),
           ("x", PropertyValue.parsedProp "d" ⟨"string", "d"⟩)] :=
  ⟨rfl, rfl⟩

/-- C2 counterexample: a page with two definition sections titled A and B
parses to a schemas map holding only A, because only the first definition
node is handed to the schema parser; the claimed entry for B is absent. -/
theorem c2_counterexample :
    queryAll c2Page selDefinition = [c2DefA, c2DefB] ∧
    textContent (query c2DefB selH2) = .ok "B" ∧
    parsePageToOpenAPI c2Page = .ok c2Model ∧
    jsLookup c2Model.components.schemas "B" = none :=
  ⟨rfl, rfl, rfl, rfl⟩

/-- C2 amended: the orchestrator parses only the first named-schema
definition node, so whenever the groups fold succeeds and the first
definition node parses, the returned model holds exactly one schema entry,
keyed by the first section title; later sections contribute nothing. -/
theorem c2_amended (page e : Node) (t : String) (pm : PathMap)
    (props : PropMap) (ds : List Node)
    (h1 : groupsLoop (queryAll page selSupportGa) [] = .ok pm)
    (h2 : queryAll page selDefinition = e :: ds)
    (h3 : textContent (query e selH2) = .ok t)
    (h4 : parseSchemaProperties e = .ok props) :
    parsePageToOpenAPI page = .ok ⟨pm, ⟨[(t, ⟨"object", props⟩)]⟩⟩ := by
  simp only [parsePageToOpenAPI, bind, Except.bind, h1, h2, List.head?,
    parseSchemas, h3, h4, jsInsert, pure, Except.pure]

/-- C2 witness: the amended statement instantiated on the two-definition
page: the model keeps only the entry keyed by the first section title. -/
theorem c2_witness :
    parsePageToOpenAPI c2Page =
      .ok ⟨[], ⟨[("A", ⟨"object", [("id", idSeedValue)]⟩)]⟩⟩ :=
  c2_amended c2Page c2DefA "A" [] [("id", idSeedValue)] [c2DefB] rfl rfl rfl rfl

/-- C3: the claim says a group section without a heading node yields an
empty path map and the run continues; the code instead calls textContent
on the absent handle, which throws Element not found, aborting parsePaths
and with it the whole orchestrator run on a page holding such a group. -/
theorem c3_code_eval :
    query c3Group selTagHeading = none ∧
    parsePaths c3Group = .error .elementNotFound ∧
    parsePageToOpenAPI c3Page = .error .elementNotFound :=
  ⟨rfl, rfl, rfl⟩

/-- C4 counterexample: a title whose direct text is the name a colon b is
extracted as ab, because the source removes every colon with replaceAll;
the claim that an interior colon is preserved fails here. -/
theorem c4_counterexample :
    query c4CexRowD selPropTitle = some c4CexTitle ∧
    extractParameter c4CexRowD =
      .ok ⟨"ab", "Description", false, "query",
           ⟨"string", false, none, none, none⟩⟩ ∧
    ("ab" : String) ≠ "a:b" :=
  ⟨rfl, rfl, by decide⟩

/-- C4 amended: the extracted parameter name is the concatenation of only
the direct text children of the title node, trimmed, with every colon
removed, not only a trailing one; the userId example of the spec still
holds since its only colon is trailing. -/
theorem c4_amended (p c : Node) (r : ParameterObject)
    (h1 : query p selPropTitle = some c)
    (h2 : extractParameter p = .ok r) :
    r.name = jsParamName c := by
  simp only [extractParameter, h1, Option.map, bind, Except.bind, pure,
    Except.pure] at h2
  repeat' split at h2
  all_goals try cases h2
  all_goals rfl

/-- C4 witness: on the spec example title the amended rule yields the
name userId. -/
theorem c4_witness :
    c4WitRes.name = jsParamName c4WitTitle ∧ jsParamName c4WitTitle = "userId" :=
  ⟨c4_amended c4WitRow c4WitTitle c4WitRes rfl rfl, rfl⟩

/-- C5 counterexample: the first group contributes method get under the
path, the second contributes post under the same path, and the final
model holds only the post entry: the merge overwrites whole path entries,
so the claimed preservation of both methods fails. -/
theorem c5_counterexample :
    parsePaths c5Group1 = .ok [("/account", [("get", c5DataGet)])] ∧
    parsePaths c5Group2 = .ok [("/account", [("post", c5DataPost)])] ∧
    parsePageToOpenAPI c5Page =
      .ok ⟨[("/account", [("post", c5DataPost)])],
           ⟨[("account", ⟨"object", [("id", idSeedValue)]⟩)]⟩⟩ ∧
    jsLookup2 [("/account", [("post", c5DataPost)])] "/account" "get" = none :=
  ⟨rfl, rfl, rfl, rfl⟩

/-- C5 amended: the cross-group merge is Object.assign at the path level:
the final paths map is the fold of the group maps, and any path bound in
the later group map carries exactly that group whole method map,
discarding methods the earlier group had under the same path. -/
theorem c5_amended (page g1 g2 e : Node) (m1 m2 : PathMap) (sm : SchemaMap)
    (p : String) (mm : MethodMap) (ds : List Node)
    (h1 : queryAll page selSupportGa = [g1, g2])
    (h2 : parsePaths g1 = .ok m1)
    (h3 : parsePaths g2 = .ok m2)
    (h4 : queryAll page selDefinition = e :: ds)
    (h5 : parseSchemas (some e) [] = .ok sm)
    (h6 : jsLookup m2 p = some mm) :
    parsePageToOpenAPI page = .ok ⟨objAssign (objAssign [] m1) m2, ⟨sm⟩⟩ ∧
    jsLookup (objAssign (objAssign [] m1) m2) p = some mm := by
  constructor
  · simp only [parsePageToOpenAPI, bind, Except.bind, h1, groupsLoop, h2, h3,
      h4, List.head?, h5, pure, Except.pure]
  · exact jsLookup_objAssign_of_some m2 (objAssign [] m1) p mm
      (parsePaths_nodup_keys g2 m2 h3) h6

/-- C5 witness: the amended statement instantiated on the two-group page:
the path entry equals the later group method map, holding only post. -/
theorem c5_witness :
    parsePageToOpenAPI c5Page =
      .ok ⟨objAssign (objAssign [] [("/account", [("get", c5DataGet)])])
             [("/account", [("post", c5DataPost)])],
           ⟨[("account", ⟨"object", [("id", idSeedValue)]⟩)]⟩⟩ ∧
    jsLookup (objAssign (objAssign [] [("/account", [("get", c5DataGet)])])
        [("/account", [("post", c5DataPost)])]) "/account" =
      some [("post", c5DataPost)] :=
  c5_amended c5Page c5Group1 c5Group2 c5Def
    [("/account", [("get", c5DataGet)])] [("/account", [("post", c5DataPost)])]
    [("account", ⟨"object", [("id", idSeedValue)]⟩)] "/account"
    [("post", c5DataPost)] [] rfl rfl rfl rfl rfl rfl

/-- C6 counterexample: two property terms share the name x, so the output
map has two entries, not three: the claimed size equation one plus the
number of consumed property terms fails under key collision. -/
theorem c6_counterexample :
    parseSchemaProperties c6CexDef =
      .ok [("id", idSeedValue),
           ("x", PropertyValue.parsedProp "d2" ⟨"string", "d2"⟩)] ∧
    consumedTermCount (queryAll c6CexDef selSchemaProps) = 2 ∧
    ([("id", idSeedValue),
      ("x", PropertyValue.parsedProp "d2" ⟨"string", "d2"⟩)] : PropMap).length ≠
      1 + consumedTermCount (queryAll c6CexDef selSchemaProps) := by
  refine ⟨rfl, rfl, ?_⟩
  decide

/-- C6 amended: the output map always holds the id key; when the parsed
property names are pairwise distinct and none is id, the id entry is the
fixed RecordRef reference and the map size is exactly one plus the number
of property terms consumed; colliding names collapse last-wins. -/
theorem c6_amended (e : Node) (es : List (String × PropertyValue)) (m : PropMap)
    (h1 : propEntries (queryAll e selSchemaProps) = .ok es)
    (h2 : (es.map Prod.fst).Nodup)
    (h3 : "id" ∉ es.map Prod.fst)
    (h4 : parseSchemaProperties e = .ok m) :
    jsLookup m "id" = some idSeedValue ∧
    m.length = 1 + consumedTermCount (queryAll e selSchemaProps) := by
  unfold parseSchemaProperties at h4
  simp only [propsLoop_eq, h1] at h4
  cases h4
  have hacc : keysOf (jsInsert ([] : PropMap) "id" idSeedValue) = ["id"] := rfl
  have hf : ∀ k, k ∈ es.map Prod.fst →
      k ∉ keysOf (jsInsert ([] : PropMap) "id" idSeedValue) := by
    intro k hk
    rw [hacc]
    simp only [List.mem_singleton]
    intro he
    rw [he] at hk
    exact h3 hk
  obtain ⟨hl, hlook⟩ :=
    foldl_jsInsert_fresh es (jsInsert [] "id" idSeedValue) hf h2
  constructor
  · rw [hlook "id" (by rw [hacc]; exact List.mem_singleton_self "id")]
    rfl
  · rw [hl, propEntries_length _ _ h1]
    rfl

/-- C6 witness: a schema with distinct names a and b, the first consuming
a continuation, parses to a three-entry map: the id seed plus one entry
per consumed term. -/
theorem c6_witness :
    jsLookup [("id", idSeedValue),
      ("a", PropertyValue.parsedProp "d" ⟨"string", "d"⟩),
      ("b", PropertyValue.parsedProp "e" ⟨"string", "e"⟩)] "id" = some idSeedValue ∧
    ([("id", idSeedValue),
      ("a", PropertyValue.parsedProp "d" ⟨"string", "d"⟩),
      ("b", PropertyValue.parsedProp "e" ⟨"string", "e"⟩)] : PropMap).length =
      1 + consumedTermCount (queryAll c6WitDef selSchemaProps) :=
  c6_amended c6WitDef
    [("a", PropertyValue.parsedProp "d" ⟨"string", "d"⟩),
     ("b", PropertyValue.parsedProp "e" ⟨"string", "e"⟩)]
    [("id", idSeedValue),
     ("a", PropertyValue.parsedProp "d" ⟨"string", "d"⟩),
     ("b", PropertyValue.parsedProp "e" ⟨"string", "e"⟩)]
    rfl (by decide) (by decide) rfl

/-- C7: a missing summary node on an otherwise well-formed operation node
makes parseOperation throw Element not found, which aborts the enclosing
parsePaths run (no path entry is written) and the whole orchestrator run
(no model is returned), provided the earlier operations and groups had
succeeded so that execution reaches the faulty node. -/
theorem c7_missing_summary (o g pg : Node) (t mt mv pt : String)
    (l1 l2 gl1 gl2 : List Node)
    (hm1 : textContent (query o selOpMethod) = .ok mt)
    (hm2 : extractMethod mt = .ok mv)
    (hp : textContent (query o selOpPath) = .ok pt)
    (hs : query o selOpSummary = none)
    (hg : textContent (query g selTagHeading) = .ok t)
    (hops : queryAll g selOperationDiv = l1 ++ o :: l2)
    (hl1 : ∀ x ∈ l1, ∃ r, parseOperation x t = .ok r)
    (hgs : queryAll pg selSupportGa = gl1 ++ g :: gl2)
    (hgl1 : ∀ x ∈ gl1, ∃ pm, parsePaths x = .ok pm) :
    parseOperation o t = .error .elementNotFound ∧
    parsePaths g = .error .elementNotFound ∧
    parsePageToOpenAPI pg = .error .elementNotFound := by
  have hop : parseOperation o t = .error .elementNotFound := by
    have hnone : textContent (none : Option Node) = .error .elementNotFound := rfl
    simp only [parseOperation, bind, Except.bind, hm1, hm2, hp, hs, hnone]
  have hpp : parsePaths g = .error .elementNotFound := by
    simp only [parsePaths, bind, Except.bind, hg]
    rw [if_neg (textContent_ok_ne_empty _ _ hg), hops]
    exact opsLoop_error_of_mem t l1 l2 o [] _ hop hl1
  refine ⟨hop, hpp, ?_⟩
  simp only [parsePageToOpenAPI, bind, Except.bind, hgs]
  rw [groupsLoop_error_of_mem gl1 gl2 g [] _ hpp hgl1]

/-- C7 witness: a concrete operation with method and path but no summary
aborts the operation, the group, and the page run with Element not found. -/
theorem c7_witness :
    parseOperation c7Op "xgroup" = .error .elementNotFound ∧
    parsePaths c7Group = .error .elementNotFound ∧
    parsePageToOpenAPI c7Page = .error .elementNotFound :=
  c7_missing_summary c7Op c7Group c7Page "xgroup" "get" "get" "/x" [] [] [] []
    rfl rfl rfl rfl rfl rfl (fun x hx => absurd hx (List.not_mem_nil x))
    rfl (fun x hx => absurd hx (List.not_mem_nil x))

/-- C8: within a group, operations are folded in document order and the
method key is assigned last-wins: when the group parses, the resulting
map at any path and method equals the data of the last operation result
with that path and method, so a duplicate pair keeps only the later data. -/
theorem c8_last_wins (g : Node) (t p mth : String) (rs : List OperationResult)
    (h1 : textContent (query g selTagHeading) = .ok t)
    (h2 : opResults t (queryAll g selOperationDiv) = .ok rs) :
    parsePaths g = .ok (rs.foldl insertOp []) ∧
    jsLookup2 (rs.foldl insertOp []) p mth = lastMatch p mth rs := by
  constructor
  · simp only [parsePaths, bind, Except.bind, h1]
    rw [if_neg (textContent_ok_ne_empty _ _ h1), opsLoop_eq, h2]
  · rw [jsLookup2_foldl_insertOp]
    cases lastMatch p mth rs with
    | some d => rfl
    | none => rfl

/-- C8 witness: two operations with the same path and method in one
group; the folded map retains exactly the data of the second one. -/
theorem c8_witness :
    (parsePaths c8Group = .ok ([c8R1, c8R2].foldl insertOp []) ∧
     jsLookup2 ([c8R1, c8R2].foldl insertOp []) "/account" "get" =
       lastMatch "/account" "get" [c8R1, c8R2]) ∧
    lastMatch "/account" "get" [c8R1, c8R2] = some c8R2.data :=
  ⟨c8_last_wins c8Group "account" "/account" "get" [c8R1, c8R2] rfl rfl, rfl⟩

/-- C9: for every operation the extractor returns, the responses map
holds the key 200 exactly when it holds the key default, and when both
are present their schema reference targets coincide, because the success
and error references are read by the same first-match query over the same
responses scope. -/
theorem c9_responses_sync (o : Node) (t : String) (r : OperationResult)
    (h : parseOperation o t = .ok r) :
    ((jsLookup r.data.responses "200").isSome =
      (jsLookup r.data.responses "default").isSome) ∧
    ∀ a b, jsLookup r.data.responses "200" = some a →
      jsLookup r.data.responses "default" = some b →
      a.schemaRef = b.schemaRef := by
  have herr : extractErrorSchema o = extractSchema o "swagger-responses" := rfl
  simp only [parseOperation, bind, Except.bind, pure, Except.pure] at h
  repeat' split at h
  all_goals try cases h
  rw [herr]
  exact buildResponses_sync (extractSchema o "swagger-responses")

/-- C9 witness: a concrete operation with one responses-scope reference
parses to a responses map holding 200 and default with equal targets. -/
theorem c9_witness :
    ((jsLookup c9Res.data.responses "200").isSome =
      (jsLookup c9Res.data.responses "default").isSome) ∧
    ∀ a b, jsLookup c9Res.data.responses "200" = some a →
      jsLookup c9Res.data.responses "default" = some b →
      a.schemaRef = b.schemaRef :=
  c9_responses_sync c9Op "account" c9Res rfl

/-- C10: when the page holds no definition node at all, the orchestrator
never returns a model: the unconditional access to the first element of
the empty definition list makes the schema step fail, so no result with
an empty schemas map is produced. -/
theorem c10_no_defs (pg : Node) (h : queryAll pg selDefinition = []) :
    ∀ m, parsePageToOpenAPI pg ≠ .ok m := by
  intro m hm
  simp only [parsePageToOpenAPI, bind, Except.bind, h, List.head?,
    parseSchemas] at hm
  split at hm
  · cases hm
  · cases hm

/-- C10 witness: a page with one group and no definition section returns
no model, in particular not the one with that group paths and an empty
schemas map. -/
theorem c10_witness :
    parsePageToOpenAPI c10Page ≠
      .ok ⟨[("/a", [("get", ⟨[], "s", [], none, ["Acc"]⟩)])], ⟨[]⟩⟩ :=
  c10_no_defs c10Page rfl
    ⟨[("/a", [("get", ⟨[], "s", [], none, ["Acc"]⟩)])], ⟨[]⟩⟩

end NsOpenApi
